import Mathlib

/-!
Shallow embedding of the `rsbackup` shard-orchestration service.

The filesystem is modelled at the level of the backup-root directory: an
association list from file name to file data (content bytes plus a
modification time).  `path.Join(BackupRoot, name)` in the source is
injective for a fixed root and every file the program touches lives flat
under the root, so keying by bare name is faithful.

External collaborators (the `rsutils` erasure-coding codec, the content
hash, and the JSON encoder/decoder for metadata) are passed in as function
parameters: the orchestration code never inspects their internals.
-/

/-- A calendar timestamp; Go's `time.Time` restricted to the fields the
format string "2006-01-02 15:04:05" renders. -/
structure DateTime where
  year : Nat
  month : Nat
  day : Nat
  hour : Nat
  minute : Nat
  second : Nat
deriving DecidableEq, Repr

/-- Zero-pad a numeral to two digits, as Go's "01".."05" layout fields do. -/
def pad2 (n : Nat) : String :=
  if n < 10 then "0" ++ toString n else toString n

/-- Zero-pad a numeral to four digits, as Go's "2006" layout field does. -/
def pad4 (n : Nat) : String :=
  if n < 10 then "000" ++ toString n
  else if n < 100 then "00" ++ toString n
  else if n < 1000 then "0" ++ toString n
  else toString n

/-- Go `t.Format("2006-01-02 15:04:05")`: the timestamp rendering used by
`CheckData` for the primary file's modification time. -/
def goTimeFormat (t : DateTime) : String :=
  pad4 t.year ++ "-" ++ pad2 t.month ++ "-" ++ pad2 t.day ++ " " ++
    pad2 t.hour ++ ":" ++ pad2 t.minute ++ ":" ++ pad2 t.second

/-- One file in the backup root: its byte content and modification time. -/
structure FileData where
  content : List Nat
  mtime : DateTime
deriving DecidableEq, Repr

/-- The backup-root directory: file name to file data, names unique. -/
abbrev FS := List (String × FileData)

/-- Directory lookup by file name (first match). -/
def lookupFile : FS → String → Option FileData
  | [], _ => none
  | (n, f) :: fs, m => if n = m then some f else lookupFile fs m

/-- Overwrite the content of the named file, keeping every other entry. -/
def setContent : FS → String → List Nat → FS
  | [], _, _ => []
  | (m, f) :: fs, n, c =>
    (m, if m = n then FileData.mk c f.mtime else f) :: setContent fs n c

/-- `rsutils.Metadata`: the JSON descriptor binding a record to its size,
shard counts and per-shard reference hashes. -/
structure Metadata where
  size : Nat
  dataShards : Nat
  parityShards : Nat
  hashes : List String
deriving DecidableEq, Repr

/-- `Config`: the server configuration (the `BackupRoot` path is absorbed
by the directory-level `FS` abstraction; only the shard counts remain). -/
structure Config where
  dataShards : Nat
  parityShards : Nat
deriving DecidableEq, Repr

/-- Errors of the filesystem-level operations: `O_EXCL` collision and a
missing file. -/
inductive FMErr where
  | alreadyExists
  | notFound
deriving DecidableEq, Repr

/-- `fmt.Sprintf("%s.parity.%d", fpath, i)`: the deterministic parity-file
name for 1-based parity index `i`. -/
def parityName (fpath : String) (i : Nat) : String :=
  fpath ++ ".parity." ++ toString i

/-- The parity-file names for indices `1..k`, in creation order. -/
def parityNames (fpath : String) (k : Nat) : List String :=
  (List.range k).map (fun i => parityName fpath (i + 1))

/-- Modelled from the spec: `rsutils.SplitIntoPaddedChunks` (external to
this repository).  Splits a stream of `totalLength` bytes into
`shardCount` windows of `ceil(totalLength / shardCount)` bytes each;
reads past the real data return zero bytes (padding), and the stream is
bounded by `totalLength` even if the backing file is longer. -/
def splitIntoPaddedChunks (content : List Nat) (totalLength shardCount : Nat) :
    List (List Nat) :=
  let shardSize := (totalLength + shardCount - 1) / shardCount
  (List.range shardCount).map (fun i =>
    (List.range shardSize).map (fun j =>
      ((content.take totalLength).getD (i * shardSize + j) 0)))

/-- Force the codec's parity output to exactly `k` chunks, the number of
parity writers the caller opened. -/
def normalizeParity (chunks : List (List Nat)) (k : Nat) : List (List Nat) :=
  (List.range k).map (fun i => chunks.getD i [])

/-- Modelled from the spec: the health verdict of
`rsutils.ShardManager.CheckHealth` (external to this repository) — healthy
iff every shard's current hash matches `metadata.shardHashes` at the same
index. -/
def checkHealth (hash : List Nat → String) (shards : List (List Nat))
    (hashes : List String) : Bool :=
  (List.zip shards hashes).all (fun p => hash p.1 == p.2)

/-- The indices whose current shard hash differs from the reference hash;
the corrupt-shard set `C` that the repair state machine inspects. -/
def corruptIndices (hash : List Nat → String) (shards : List (List Nat))
    (hashes : List String) : List Nat :=
  (List.range (min shards.length hashes.length)).filter
    (fun i => !(hash (shards.getD i []) == hashes.getD i ""))

/-- `RSFileManager.SaveFile`: exclusive-create (`O_EXCL`) of the primary
data file, then copy the uploaded content into it.  Returns the stored
path alongside the new directory state. -/
def saveFile (fs : FS) (content : List Nat) (fname : String) (now : DateTime) :
    Except FMErr String × FS :=
  match lookupFile fs fname with
  | some _ => (Except.error FMErr.alreadyExists, fs)
  | none => (Except.ok fname, fs ++ [(fname, FileData.mk content now)])

/-- `RSFileManager.WriteMetadata`: exclusive-create of `<name>.md`, then
encode the metadata into it (`enc` is the external JSON encoder). -/
def writeMetadata (enc : Metadata → List Nat) (fs : FS) (fname : String)
    (md : Metadata) (now : DateTime) : Except FMErr Unit × FS :=
  match lookupFile fs (fname ++ ".md") with
  | some _ => (Except.error FMErr.alreadyExists, fs)
  | none => (Except.ok (), fs ++ [(fname ++ ".md", FileData.mk (enc md) now)])

/-- Exclusive-create, in order, of one empty file per listed name; the Go
parity-writer loop stops at the first collision, leaving the files already
created in place. -/
def createFilesExcl (fs : FS) (names : List String) (now : DateTime) :
    Except FMErr Unit × FS :=
  match names with
  | [] => (Except.ok (), fs)
  | n :: ns =>
    match lookupFile fs n with
    | some _ => (Except.error FMErr.alreadyExists, fs)
    | none => createFilesExcl (fs ++ [(n, FileData.mk [] now)]) ns now

/-- Write the computed parity chunks into the (just created) parity files
`<fpath>.parity.1..k`, as `rsutils.ShardCreator.Encode` does through the
writers it was handed. -/
def writeParity (fs : FS) (fpath : String) (parity : List (List Nat)) : FS :=
  (List.range parity.length).foldl
    (fun acc i => setContent acc (parityName fpath (i + 1)) (parity.getD i []))
    fs

/-- `RSBackupAPI.GenerateParityFiles`: open the saved primary file, split
it into `Config.DataShards` padded windows, exclusively create the
`Config.ParityShards` parity files, then let the codec fill them and
return the metadata (size, shard counts, and the hash of every data and
parity shard in index order).  `codec` is the external erasure coder. -/
def generateParityFiles (hash : List Nat → String)
    (codec : List (List Nat) → Nat → List (List Nat)) (cfg : Config)
    (fs : FS) (dataFilePath : String) (now : DateTime) :
    Except FMErr Metadata × FS :=
  match lookupFile fs dataFilePath with
  | none => (Except.error FMErr.notFound, fs)
  | some file =>
    let dataFileSize := file.content.length
    let dataChunks := splitIntoPaddedChunks file.content dataFileSize cfg.dataShards
    match createFilesExcl fs (parityNames dataFilePath cfg.parityShards) now with
    | (Except.error e, fs1) => (Except.error e, fs1)
    | (Except.ok _, fs1) =>
      let parity := normalizeParity (codec dataChunks cfg.parityShards) cfg.parityShards
      (Except.ok (Metadata.mk dataFileSize cfg.dataShards cfg.parityShards
          ((dataChunks ++ parity).map hash)),
        writeParity fs1 dataFilePath parity)

/-- Go's `\d` character class over RE2: the ASCII digits. -/
def isDigitCh (c : Char) : Bool :=
  decide ('0' ≤ c) && decide (c ≤ '9')

/-- The literal characters of the `parity\.` part of the list filter's
pattern `.*parity\.\d+$`. -/
def parityPat : List Char :=
  ['p', 'a', 'r', 'i', 't', 'y', '.']

/-- Strip a literal prefix from a character list, or fail. -/
def dropPfx : List Char → List Char → Option (List Char)
  | [], cs => some cs
  | _ :: _, [] => none
  | p :: ps, c :: cs => if p = c then dropPfx ps cs else none

/-- Does `parity\.\d+$` match starting at the head of `cs`? -/
def matchesParityHere (cs : List Char) : Bool :=
  match dropPfx parityPat cs with
  | some d => !d.isEmpty && d.all isDigitCh
  | none => false

/-- Unanchored search for `parity\.\d+$`: true iff the pattern matches at
some position, i.e. iff `.*parity\.\d+$` matches the whole string. -/
def hasParitySuffixL : List Char → Bool
  | [] => false
  | c :: cs => matchesParityHere (c :: cs) || hasParitySuffixL cs

/-- `regexp.MatchString(".*parity\\.\\d+$", name)`: the parity-file filter
of `ListData`. -/
def isParityName (s : String) : Bool :=
  hasParitySuffixL s.data

/-- Lexicographic strict order on character lists, by code point; the
order Go's `<` on strings induces through byte-wise comparison. -/
def strLtChars : List Char → List Char → Bool
  | [], [] => false
  | [], _ :: _ => true
  | _ :: _, [] => false
  | a :: as, b :: bs => decide (a < b) || (decide (a = b) && strLtChars as bs)

/-- Go `a < b` on strings. -/
def goStrLt (a b : String) : Bool :=
  strLtChars a.data b.data

/-- Insert a string into a list, before the first element not below it. -/
def insertLe (s : String) : List String → List String
  | [] => [s]
  | t :: ts => if goStrLt t s then t :: insertLe s ts else s :: t :: ts

/-- Insertion sort by the lexicographic string order; directory names are
unique, so this computes the one ascending arrangement that `sort.Slice`
with `names[i] < names[j]` produces. -/
def sortStrings : List String → List String
  | [] => []
  | s :: ss => insertLe s (sortStrings ss)

/-- `RSFileManager.ListData`: the directory entry names that do not match
the parity pattern, sorted ascending. -/
def listData (fs : FS) : List String :=
  sortStrings ((fs.map Prod.fst).filter (fun n => !isParityName n))

/-- `strings.Split(path, "/")` specialised to the separator the routing
code uses; empty segments are kept, as in Go. -/
def splitOnSlash : List Char → List (List Char)
  | [] => [[]]
  | c :: cs =>
    if c = '/' then [] :: splitOnSlash cs
    else
      match splitOnSlash cs with
      | [] => [[c]]
      | g :: gs => (c :: g) :: gs

/-- `getURLParam`: returns the 3rd segment of the URL path
(`/some/thing` gives `thing`); errors when the path does not have exactly
three segments or the 3rd is empty. -/
def getURLParam (urlPath : String) : Except Unit String :=
  let urlParams := splitOnSlash urlPath.data
  if urlParams.length ≠ 3 ∨ urlParams.getD 2 [] = [] then Except.error ()
  else Except.ok (String.mk (urlParams.getD 2 []))

/-- `strings.HasPrefix` over the character lists of the two strings. -/
def startsWithChars : List Char → List Char → Bool
  | _, [] => true
  | [], _ :: _ => false
  | c :: cs, p :: ps => (c = p) && startsWithChars cs ps

/-- `strings.HasPrefix(s, p)`. -/
def strStartsWith (s p : String) : Bool :=
  startsWithChars s.data p.data

/-- `strings.ContainsAny(s, "/")`: the forbidden path-separator test of
the submit handler. -/
def containsSlash (s : String) : Bool :=
  s.data.any (fun c => c = '/')

/-- The failures `RSFileManager.CheckData` can surface, with the error
message each carries in the source (`File not found` and `Metadata not
found` are literal `fmt.Errorf` strings in src; the decode and parity
open errors come from the JSON and OS layers and are modelled by fixed
representative strings that, as in reality, differ from the literal
`File not found`). -/
inductive CheckErr where
  | fileNotFound
  | metadataNotFound
  | metadataCorrupt
  | parityOpen
deriving DecidableEq, Repr

/-- The message text the handler compares against `"File not found"`. -/
def CheckErr.message : CheckErr → String
  | CheckErr.fileNotFound => "File not found"
  | CheckErr.metadataNotFound => "Metadata not found"
  | CheckErr.metadataCorrupt => "Metadata corrupt"
  | CheckErr.parityOpen => "no such file or directory"

/-- Open the parity files `<fpath>.parity.1..k` in order, as `CheckData`
does; fails at the first missing one. -/
def openParityFiles (fs : FS) (fpath : String) (k : Nat) :
    Option (List (List Nat)) :=
  (List.range k).mapM (fun i =>
    (lookupFile fs (parityName fpath (i + 1))).map FileData.content)

/-- `RSFileManager.CheckData`: open the primary file, read and decode its
metadata (`dec` is the external JSON decoder), re-derive the data-shard
windows from the primary content bounded by `metadata.size`, open the
metadata's count of parity files, and verify every shard hash against the
stored list; returns the health verdict, the primary file's formatted
modification time, and the stored hash list.  The `Config` argument is
used in the source only to compute the backup-root path, which the
directory-level `FS` absorbs. -/
def checkData (hash : List Nat → String) (dec : List Nat → Option Metadata)
    (cfg : Config) (fs : FS) (fname : String) :
    Except CheckErr (Bool × String × List String) :=
  match lookupFile fs fname with
  | none => Except.error CheckErr.fileNotFound
  | some file =>
    match lookupFile fs (fname ++ ".md") with
    | none => Except.error CheckErr.metadataNotFound
    | some mdFile =>
      match dec mdFile.content with
      | none => Except.error CheckErr.metadataCorrupt
      | some md =>
        let fileChunks := splitIntoPaddedChunks file.content md.size md.dataShards
        match openParityFiles fs fname md.parityShards with
        | none => Except.error CheckErr.parityOpen
        | some parityContents =>
          let health := checkHealth hash (fileChunks ++ parityContents) md.hashes
          Except.ok (health, goTimeFormat file.mtime, md.hashes)

/-- The response of the check endpoint: an HTTP error status, or the 200
JSON body `{name, lmod, health, hashes}`. -/
inductive CheckOut where
  | err (code : Nat)
  | ok (name lmod : String) (health : Bool) (hashes : List String)
deriving DecidableEq, Repr

/-- `checkDataHandler`: method and URL-parameter validation, then
`CheckData`; the error whose message is exactly `"File not found"` maps to
404, every other failure to 500. -/
def checkDataHandler (hash : List Nat → String)
    (dec : List Nat → Option Metadata) (cfg : Config) (fs : FS)
    (method urlPath : String) : CheckOut :=
  if method ≠ "GET" then CheckOut.err 405
  else
    match getURLParam urlPath with
    | Except.error _ => CheckOut.err 400
    | Except.ok fname =>
      match checkData hash dec cfg fs fname with
      | Except.error e =>
        if e.message = "File not found" then CheckOut.err 404
        else CheckOut.err 500
      | Except.ok (health, lmod, hashes) => CheckOut.ok fname lmod health hashes

/-- The response of the submit endpoint: an HTTP error status, or the 200
JSON body `{size, hashes, data_shards, parity_shards}`. -/
inductive SubmitOut where
  | err (code : Nat)
  | ok (size : Nat) (hashes : List String) (dataShards parityShards : Nat)
deriving DecidableEq, Repr

/-- `submitDataHandler`: method check, multipart `file` field (absent form
field gives 400), `filename` field (Go's `FormValue` yields the empty
string when the field is missing, so missing and empty coincide), the
path-separator test, then `SaveFile`, `GenerateParityFiles` and
`WriteMetadata` in order, each failure surfacing as 500. -/
def submitDataHandler (hash : List Nat → String)
    (codec : List (List Nat) → Nat → List (List Nat))
    (enc : Metadata → List Nat) (cfg : Config) (fs : FS) (method : String)
    (fileField : Option (List Nat)) (filename : String) (now : DateTime) :
    SubmitOut × FS :=
  if method ≠ "POST" then (SubmitOut.err 405, fs)
  else
    match fileField with
    | none => (SubmitOut.err 400, fs)
    | some content =>
      if filename = "" then (SubmitOut.err 400, fs)
      else if containsSlash filename then (SubmitOut.err 400, fs)
      else
        match saveFile fs content filename now with
        | (Except.error _, fs1) => (SubmitOut.err 500, fs1)
        | (Except.ok dataFilePath, fs1) =>
          match generateParityFiles hash codec cfg fs1 dataFilePath now with
          | (Except.error _, fs2) => (SubmitOut.err 500, fs2)
          | (Except.ok md, fs2) =>
            match writeMetadata enc fs2 filename md now with
            | (Except.error _, fs3) => (SubmitOut.err 500, fs3)
            | (Except.ok _, fs3) =>
              (SubmitOut.ok md.size md.hashes md.dataShards md.parityShards, fs3)

/-- The failures `RSFileManager.RepairData` can surface to its handler:
a missing file (recognised through `os.IsNotExist`), the unrecoverable
too-many-corrupt-shards condition, a codec reconstruction failure, and
everything else. -/
inductive RepairErr where
  | notExist
  | cannotRepair (c p : Nat)
  | reconErr (s : String)
  | other (s : String)
deriving DecidableEq, Repr

/-- The `err.Error()` text the repair handler routes on; the unrecoverable
message carries both the corrupt count and the parity count, in the format
the repository's tests pin down ("Cannot repair data: 2 shards corrupt,
only have 1 parity shards"). -/
def RepairErr.message : RepairErr → String
  | RepairErr.notExist => "file does not exist"
  | RepairErr.cannotRepair c p =>
      "Cannot repair data: " ++ toString c ++ " shards corrupt, only have " ++
        toString p ++ " parity shards"
  | RepairErr.reconErr s => "Error reconstructing data" ++ s
  | RepairErr.other s => s

/-- `os.IsNotExist` on the repair error. -/
def RepairErr.isNotExist : RepairErr → Bool
  | RepairErr.notExist => true
  | _ => false

/-- Overwrite exactly the corrupt shard files with the reconstructed
content: corrupt data windows are written back into the primary file's
byte range (the result truncated to `metadata.size`), corrupt parity
shards overwrite their parity file; metadata is never rewritten. -/
def repairWrite (fs : FS) (fname : String) (md : Metadata)
    (corrupt : List Nat) (dataChunks newShards : List (List Nat)) : FS :=
  let fs1 :=
    if corrupt.any (fun i => i < md.dataShards) then
      setContent fs fname
        (((List.range md.dataShards).map (fun j =>
            if j ∈ corrupt then newShards.getD j [] else dataChunks.getD j [])).flatten.take
          md.size)
    else fs
  corrupt.foldl
    (fun acc i =>
      if md.dataShards ≤ i then
        setContent acc (parityName fname (i - md.dataShards + 1)) (newShards.getD i [])
      else acc)
    fs1

/-- Modelled from the spec: `RSFileManager.RepairData` is called by the
repair handler but is not among the source files; §4.4 of the spec defines
it.  Re-derive all shard windows and hashes exactly as Check does to find
the corrupt index set `C`; if `C` is empty report success without writing;
if `1 ≤ |C| ≤ parityShardCount` ask the codec (`recon`, which may fail
with an `Error reconstructing data` message) to rebuild the shards and
overwrite exactly the corrupt shard files; if `|C| > parityShardCount`
fail with the unrecoverable condition carrying both counts.  Missing
files surface as `os.IsNotExist` errors. -/
def repairData (hash : List Nat → String) (dec : List Nat → Option Metadata)
    (recon : List (List Nat) → List Nat → Except String (List (List Nat)))
    (fs : FS) (fname : String) : Option RepairErr × FS :=
  match lookupFile fs fname with
  | none => (some RepairErr.notExist, fs)
  | some file =>
    match lookupFile fs (fname ++ ".md") with
    | none => (some (RepairErr.other "Metadata not found"), fs)
    | some mdFile =>
      match dec mdFile.content with
      | none => (some (RepairErr.other "Metadata corrupt"), fs)
      | some md =>
        let dataChunks := splitIntoPaddedChunks file.content md.size md.dataShards
        match openParityFiles fs fname md.parityShards with
        | none => (some RepairErr.notExist, fs)
        | some parityContents =>
          let shards := dataChunks ++ parityContents
          let corrupt := corruptIndices hash shards md.hashes
          if corrupt.length = 0 then (none, fs)
          else if corrupt.length ≤ md.parityShards then
            match recon shards corrupt with
            | Except.error s => (some (RepairErr.reconErr s), fs)
            | Except.ok newShards =>
                (none, repairWrite fs fname md corrupt dataChunks newShards)
          else (some (RepairErr.cannotRepair corrupt.length md.parityShards), fs)

/-- The response of the repair endpoint: an HTTP error status, or the 200
JSON body `{name, status}`. -/
inductive RepairOut where
  | err (code : Nat)
  | ok (name status : String)
deriving DecidableEq, Repr

/-- The error routing of `repairDataHandler` after `RepairData` returns:
`os.IsNotExist` maps to 404; an error whose message begins with
`Cannot repair data` or with `Error reconstructing data` becomes the 200
response's status string; every other error maps to 500; no error keeps
the prepared `GOOD` status. -/
def repairRoute (fname : String) (res : Option RepairErr) : RepairOut :=
  match res with
  | none => RepairOut.ok fname "GOOD"
  | some e =>
    if e.isNotExist then RepairOut.err 404
    else if strStartsWith e.message "Cannot repair data" ||
        strStartsWith e.message "Error reconstructing data" then
      RepairOut.ok fname e.message
    else RepairOut.err 500

/-- `repairDataHandler`: method and URL-parameter validation, then
`RepairData` followed by the error routing of `repairRoute`. -/
def repairDataHandler (hash : List Nat → String)
    (dec : List Nat → Option Metadata)
    (recon : List (List Nat) → List Nat → Except String (List (List Nat)))
    (fs : FS) (method urlPath : String) : RepairOut × FS :=
  if method ≠ "GET" then (RepairOut.err 405, fs)
  else
    match getURLParam urlPath with
    | Except.error _ => (RepairOut.err 400, fs)
    | Except.ok fname =>
      match repairData hash dec recon fs fname with
      | (res, fs1) => (repairRoute fname res, fs1)

/-- The windowing performed on the write path: `GenerateParityFiles`
splits the saved primary file, whose statted size is its length, into
`Config.DataShards` padded windows (src `rs_file_manager.go:115`). -/
def writePathChunks (content : List Nat) (dataShards : Nat) : List (List Nat) :=
  splitIntoPaddedChunks content content.length dataShards

/-- The windowing performed on the read path: `CheckData` re-derives the
data-shard windows from the stored primary file bounded by
`metadata.size` (src `rs_file_manager.go:151`). -/
def readPathChunks (content : List Nat) (size dataShards : Nat) : List (List Nat) :=
  splitIntoPaddedChunks content size dataShards

/-- A fixed timestamp for the concrete scenarios. -/
def sampleTime : DateTime :=
  DateTime.mk 2020 11 24 11 34 23

/-- A concrete stand-in for the external content hash. -/
def sampleHash : List Nat → String :=
  fun l => toString l.length

/-- A concrete stand-in for the external erasure coder. -/
def sampleCodec : List (List Nat) → Nat → List (List Nat) :=
  fun _ k => List.replicate k [7]

/-- A concrete stand-in for the external JSON metadata encoder. -/
def sampleEnc : Metadata → List Nat :=
  fun _ => [0]

/-- Concrete metadata under which record `r` below has exactly one
corrupt (parity) shard. -/
def sampleMd : Metadata :=
  Metadata.mk 2 2 1 ["1", "1", "2"]

/-- Concrete metadata under which record `r` below is fully healthy. -/
def sampleMdGood : Metadata :=
  Metadata.mk 2 2 1 ["1", "1", "1"]

/-- A decoder returning `sampleMd` for any bytes. -/
def sampleDec : List Nat → Option Metadata :=
  fun _ => some sampleMd

/-- A decoder returning `sampleMdGood` for any bytes. -/
def sampleDecGood : List Nat → Option Metadata :=
  fun _ => some sampleMdGood

/-- A complete one-record directory: primary file `r`, its metadata and
its single parity file. -/
def sampleFS : FS :=
  [("r", FileData.mk [1, 2] sampleTime),
   ("r.md", FileData.mk [9] sampleTime),
   ("r.parity.1", FileData.mk [7] sampleTime)]

/-- A codec reconstruction that fails, as the erasure coder may. -/
def reconFail : List (List Nat) → List Nat → Except String (List (List Nat)) :=
  fun _ _ => Except.error ": boom"

/-- A codec reconstruction that returns the shards unchanged. -/
def reconId : List (List Nat) → List Nat → Except String (List (List Nat)) :=
  fun shards _ => Except.ok shards


theorem lookupFile_append_some : ∀ (fs l : FS) (n : String) (c : FileData),
    lookupFile fs n = some c → lookupFile (fs ++ l) n = some c := by
  intro fs
  induction fs with
  | nil => intro l n c h; simp [lookupFile] at h
  | cons e fs ih =>
    intro l n c h
    obtain ⟨m, f⟩ := e
    by_cases hmn : m = n
    · simp only [lookupFile, if_pos hmn] at h
      simpa only [List.cons_append, lookupFile, if_pos hmn] using h
    · simp only [lookupFile, if_neg hmn] at h
      simpa only [List.cons_append, lookupFile, if_neg hmn] using ih l n c h

theorem lookupFile_setContent_ne : ∀ (fs : FS) (p : String) (c : List Nat)
    (n : String), n ≠ p → lookupFile (setContent fs p c) n = lookupFile fs n := by
  intro fs p c n hne
  induction fs with
  | nil => rfl
  | cons e fs ih =>
    obtain ⟨m, f⟩ := e
    by_cases hmp : m = p
    · have hmn : m ≠ n := by
        intro h
        rw [← h] at hne
        exact hne hmp
      simp [setContent, hmp, lookupFile, hmn, ih, Ne.symm hne]
    · by_cases hmn : m = n
      · subst hmn
        simp [setContent, lookupFile, hne]
      · simp [setContent, hmp, lookupFile, hmn, ih]

theorem createFilesExcl_preserves : ∀ (names : List String) (fs : FS)
    (now : DateTime) (n : String) (c : FileData), lookupFile fs n = some c →
    lookupFile (createFilesExcl fs names now).2 n = some c := by
  intro names
  induction names with
  | nil => intro fs now n c h; exact h
  | cons m ns ih =>
    intro fs now n c h
    simp only [createFilesExcl]
    cases hm : lookupFile fs m with
    | some f => exact h
    | none => exact ih _ now n c (lookupFile_append_some fs _ n c h)

theorem createFilesExcl_ok_fresh : ∀ (names : List String) (fs : FS)
    (now : DateTime), (createFilesExcl fs names now).1 = Except.ok () →
    ∀ m ∈ names, lookupFile fs m = none := by
  intro names
  induction names with
  | nil => intro fs now _ m hm; simp at hm
  | cons p ns ih =>
    intro fs now hok m hm
    simp only [createFilesExcl] at hok
    cases hp : lookupFile fs p with
    | some f => rw [hp] at hok; simp at hok
    | none =>
      rw [hp] at hok
      rcases List.mem_cons.mp hm with hmp | hmns
      · rw [hmp]; exact hp
      · have := ih _ now hok m hmns
        cases hq : lookupFile fs m with
        | none => rfl
        | some c =>
          rw [lookupFile_append_some fs _ m c hq] at this
          exact absurd this (by simp)

theorem createFilesExcl_shape : ∀ (names : List String) (fs : FS)
    (now : DateTime), (createFilesExcl fs names now).1 = Except.ok () ∨
    (createFilesExcl fs names now).1 = Except.error FMErr.alreadyExists := by
  intro names
  induction names with
  | nil => intro fs now; left; rfl
  | cons p ns ih =>
    intro fs now
    simp only [createFilesExcl]
    cases hp : lookupFile fs p with
    | some f => right; rfl
    | none => exact ih _ now

theorem createFilesExcl_collision : ∀ (names : List String) (fs : FS)
    (now : DateTime) (m : String), m ∈ names → lookupFile fs m ≠ none →
    (createFilesExcl fs names now).1 = Except.error FMErr.alreadyExists := by
  intro names fs now m hm hsome
  rcases createFilesExcl_shape names fs now with hok | herr
  · exact absurd (createFilesExcl_ok_fresh names fs now hok m hm) hsome
  · exact herr

theorem normalizeParity_length : ∀ (l : List (List Nat)) (k : Nat),
    (normalizeParity l k).length = k := by
  intro l k
  simp [normalizeParity]

theorem foldl_setContent_ne : ∀ (idxs : List Nat) (fs : FS) (fpath : String)
    (g : Nat → List Nat) (n : String),
    (∀ i ∈ idxs, n ≠ parityName fpath (i + 1)) →
    lookupFile
      (idxs.foldl (fun acc i => setContent acc (parityName fpath (i + 1)) (g i)) fs) n =
    lookupFile fs n := by
  intro idxs
  induction idxs with
  | nil => intro fs fpath g n _; rfl
  | cons i is ih =>
    intro fs fpath g n hna
    simp only [List.foldl_cons]
    rw [ih _ fpath g n (fun j hj => hna j (List.mem_cons_of_mem i hj))]
    exact lookupFile_setContent_ne fs _ (g i) n (hna i (List.mem_cons_self i is))

theorem writeParity_lookup_ne : ∀ (fs : FS) (fpath : String)
    (parity : List (List Nat)) (n : String),
    (∀ i, i < parity.length → n ≠ parityName fpath (i + 1)) →
    lookupFile (writeParity fs fpath parity) n = lookupFile fs n := by
  intro fs fpath parity n hna
  exact foldl_setContent_ne (List.range parity.length) fs fpath _ n
    (fun i hi => hna i (List.mem_range.mp hi))

theorem mem_parityNames : ∀ (fpath : String) (k i : Nat), i < k →
    parityName fpath (i + 1) ∈ parityNames fpath k := by
  intro fpath k i hi
  simp only [parityNames, List.mem_map]
  exact ⟨i, List.mem_range.mpr hi, rfl⟩

theorem saveFile_preserves : ∀ (fs : FS) (content : List Nat) (fname : String)
    (now : DateTime) (n : String) (c : FileData), lookupFile fs n = some c →
    lookupFile (saveFile fs content fname now).2 n = some c := by
  intro fs content fname now n c h
  simp only [saveFile]
  cases hf : lookupFile fs fname with
  | some _ => exact h
  | none => exact lookupFile_append_some fs _ n c h

theorem writeMetadata_preserves : ∀ (enc : Metadata → List Nat) (fs : FS)
    (fname : String) (md : Metadata) (now : DateTime) (n : String)
    (c : FileData), lookupFile fs n = some c →
    lookupFile (writeMetadata enc fs fname md now).2 n = some c := by
  intro enc fs fname md now n c h
  simp only [writeMetadata]
  cases hf : lookupFile fs (fname ++ ".md") with
  | some _ => exact h
  | none => exact lookupFile_append_some fs _ n c h

theorem generateParityFiles_preserves : ∀ (hash : List Nat → String)
    (codec : List (List Nat) → Nat → List (List Nat)) (cfg : Config) (fs : FS)
    (p : String) (now : DateTime) (n : String) (c : FileData),
    lookupFile fs n = some c →
    lookupFile (generateParityFiles hash codec cfg fs p now).2 n = some c := by
  intro hash codec cfg fs p now n c h
  simp only [generateParityFiles]
  cases hp : lookupFile fs p with
  | none => exact h
  | some file =>
    rcases hcr : createFilesExcl fs (parityNames p cfg.parityShards) now with ⟨r, fs1⟩
    have hpre := createFilesExcl_preserves (parityNames p cfg.parityShards) fs now n c h
    rw [hcr] at hpre
    cases r with
    | error e => exact hpre
    | ok u =>
      by_cases hmem : n ∈ parityNames p cfg.parityShards
      · have hfresh := createFilesExcl_ok_fresh (parityNames p cfg.parityShards) fs now
          (by rw [hcr]) n hmem
        rw [h] at hfresh
        exact absurd hfresh (by simp)
      · rw [writeParity_lookup_ne fs1 p _ n ?hne]
        · exact hpre
        case hne =>
          intro i hi hn
          rw [normalizeParity_length] at hi
          exact hmem (hn ▸ mem_parityNames p cfg.parityShards i hi)

theorem submitDataHandler_preserves : ∀ (hash : List Nat → String)
    (codec : List (List Nat) → Nat → List (List Nat)) (enc : Metadata → List Nat)
    (cfg : Config) (fs : FS) (method : String) (fileField : Option (List Nat))
    (filename : String) (now : DateTime) (n : String) (c : FileData),
    lookupFile fs n = some c →
    lookupFile (submitDataHandler hash codec enc cfg fs method fileField filename now).2
      n = some c := by
  intro hash codec enc cfg fs method fileField filename now n c h
  simp only [submitDataHandler]
  split
  · exact h
  · split
    · exact h
    next content =>
      split
      · exact h
      · split
        · exact h
        · split
          next e fs1 hsv =>
            have h1 := saveFile_preserves fs content filename now n c h
            rw [hsv] at h1
            exact h1
          next dataFilePath fs1 hsv =>
            have h1 := saveFile_preserves fs content filename now n c h
            rw [hsv] at h1
            split
            next e fs2 hg =>
              have h2 := generateParityFiles_preserves hash codec cfg fs1 dataFilePath now n c h1
              rw [hg] at h2
              exact h2
            next md fs2 hg =>
              have h2 := generateParityFiles_preserves hash codec cfg fs1 dataFilePath now n c h1
              rw [hg] at h2
              split
              next e fs3 hw =>
                have h3 := writeMetadata_preserves enc fs2 filename md now n c h2
                rw [hw] at h3
                exact h3
              next u fs3 hw =>
                have h3 := writeMetadata_preserves enc fs2 filename md now n c h2
                rw [hw] at h3
                exact h3

theorem checkHealth_iff : ∀ (hash : List Nat → String) (shards : List (List Nat))
    (hashes : List String), shards.length = hashes.length →
    (checkHealth hash shards hashes = true ↔
      ∀ i, i < shards.length → hash (shards.getD i []) = hashes.getD i "") := by
  intro hash shards
  induction shards with
  | nil => intro hashes _; simp [checkHealth]
  | cons s ss ih =>
    intro hashes hlen
    cases hashes with
    | nil => simp at hlen
    | cons t ts =>
      simp only [List.length_cons, Nat.add_right_cancel_iff] at hlen
      simp only [checkHealth, List.zip_cons_cons, List.all_cons, Bool.and_eq_true,
        beq_iff_eq]
      constructor
      · rintro ⟨hhead, htail⟩ i hi
        cases i with
        | zero => simpa using hhead
        | succ j =>
          have hj : j < ss.length := by
            simpa [Nat.succ_lt_succ_iff] using hi
          have := ((ih ts hlen).mp htail) j hj
          simpa using this
      · intro hall
        refine ⟨by simpa using hall 0 (by simp), ?_⟩
        refine (ih ts hlen).mpr ?_
        intro j hj
        have := hall (j + 1) (by simpa [Nat.succ_lt_succ_iff] using hj)
        simpa using this

theorem strLtChars_lex : ∀ (as bs : List Char),
    strLtChars as bs = true ↔ List.Lex (· < ·) as bs := by
  intro as
  induction as with
  | nil =>
    intro bs
    cases bs with
    | nil =>
      refine iff_of_false (by simp [strLtChars]) ?_
      intro h
      cases h
    | cons b bs => exact iff_of_true rfl List.Lex.nil
  | cons a as ih =>
    intro bs
    cases bs with
    | nil =>
      refine iff_of_false (by simp [strLtChars]) (List.Lex.not_nil_right _ _)
    | cons b bs =>
      simp only [strLtChars, Bool.or_eq_true, Bool.and_eq_true, decide_eq_true_eq]
      constructor
      · rintro (hab | ⟨rfl, htail⟩)
        · exact List.Lex.rel hab
        · exact List.Lex.cons ((ih bs).mp htail)
      · intro h
        cases h with
        | rel hab => exact Or.inl hab
        | cons htail => exact Or.inr ⟨rfl, (ih bs).mpr htail⟩

theorem goStrLt_iff : ∀ (a b : String), goStrLt a b = true ↔ a < b := by
  intro a b
  rw [String.lt_iff_toList_lt]
  exact strLtChars_lex a.data b.data

theorem goStrLt_false_iff : ∀ (a b : String), goStrLt b a = false ↔ a ≤ b := by
  intro a b
  rw [← Bool.not_eq_true, goStrLt_iff]
  exact not_lt

theorem mem_insertLe : ∀ (s : String) (l : List String) (a : String),
    a ∈ insertLe s l ↔ a = s ∨ a ∈ l := by
  intro s l
  induction l with
  | nil => intro a; simp [insertLe]
  | cons t ts ih =>
    intro a
    by_cases hlt : goStrLt t s
    · simp only [insertLe, if_pos hlt, List.mem_cons, ih]
      tauto
    · simp [insertLe, if_neg hlt]

theorem sorted_insertLe : ∀ (s : String) (l : List String),
    l.Sorted (· ≤ ·) → (insertLe s l).Sorted (· ≤ ·) := by
  intro s l
  induction l with
  | nil => intro _; simp [insertLe]
  | cons t ts ih =>
    intro hsort
    rw [List.sorted_cons] at hsort
    obtain ⟨hts, htail⟩ := hsort
    by_cases hlt : goStrLt t s
    · simp only [insertLe, if_pos hlt]
      rw [List.sorted_cons]
      refine ⟨?_, ih htail⟩
      intro b hb
      rcases (mem_insertLe s ts b).mp hb with hbs | hbts
      · rw [hbs]
        exact le_of_lt ((goStrLt_iff t s).mp hlt)
      · exact hts b hbts
    · have hle : s ≤ t := (goStrLt_false_iff s t).mp (Bool.not_eq_true _ ▸ eq_false_of_ne_true hlt)
      simp only [insertLe, if_neg hlt]
      rw [List.sorted_cons]
      refine ⟨?_, List.sorted_cons.mpr ⟨hts, htail⟩⟩
      intro b hb
      rcases List.mem_cons.mp hb with hbt | hbts
      · rw [hbt]; exact hle
      · exact le_trans hle (hts b hbts)

theorem sorted_sortStrings : ∀ (l : List String),
    (sortStrings l).Sorted (· ≤ ·) := by
  intro l
  induction l with
  | nil => simp [sortStrings]
  | cons s ss ih => exact sorted_insertLe s (sortStrings ss) ih

theorem mem_sortStrings : ∀ (l : List String) (a : String),
    a ∈ sortStrings l ↔ a ∈ l := by
  intro l
  induction l with
  | nil => intro a; simp [sortStrings]
  | cons s ss ih =>
    intro a
    simp only [sortStrings, mem_insertLe, ih, List.mem_cons]

theorem dropPfx_eq_some : ∀ (ps cs d : List Char),
    dropPfx ps cs = some d ↔ cs = ps ++ d := by
  intro ps
  induction ps with
  | nil => intro cs d; simp [dropPfx]
  | cons p ps ih =>
    intro cs d
    cases cs with
    | nil => simp [dropPfx]
    | cons c cs =>
      by_cases hpc : p = c
      · simp only [dropPfx, if_pos hpc, ih, List.cons_append, List.cons.injEq]
        rw [hpc]
        tauto
      · simp only [dropPfx, if_neg hpc, List.cons_append, List.cons.injEq]
        constructor
        · intro h; cases h
        · rintro ⟨hcp, _⟩
          exact absurd hcp.symm hpc

theorem matchesParityHere_iff : ∀ (cs : List Char),
    matchesParityHere cs = true ↔
      ∃ d, cs = parityPat ++ d ∧ d ≠ [] ∧ d.all isDigitCh = true := by
  intro cs
  unfold matchesParityHere
  cases h : dropPfx parityPat cs with
  | none =>
    simp only [Bool.false_eq_true, false_iff]
    rintro ⟨d, hcs, _, _⟩
    rw [(dropPfx_eq_some parityPat cs d).mpr hcs] at h
    cases h
  | some d =>
    have hcs := (dropPfx_eq_some parityPat cs d).mp h
    constructor
    · intro hb
      cases d with
      | nil => simp at hb
      | cons x xs =>
        refine ⟨x :: xs, hcs, by simp, ?_⟩
        simpa using hb
    · rintro ⟨d2, hcs2, hne2, hall2⟩
      have hdd : d2 = d := List.append_cancel_left (hcs.symm.trans hcs2).symm
      rw [← hdd]
      cases d2 with
      | nil => exact absurd rfl hne2
      | cons x xs => simp [hall2]

theorem hasParitySuffixL_iff : ∀ (cs : List Char),
    hasParitySuffixL cs = true ↔
      ∃ a d, cs = a ++ parityPat ++ d ∧ d ≠ [] ∧ d.all isDigitCh = true := by
  intro cs
  induction cs with
  | nil =>
    simp only [hasParitySuffixL, Bool.false_eq_true, false_iff]
    rintro ⟨a, d, hd, _, _⟩
    rw [List.append_assoc] at hd
    rcases List.append_eq_nil.mp hd.symm with ⟨_, hpd⟩
    rcases List.append_eq_nil.mp hpd with ⟨hp, _⟩
    simp [parityPat] at hp
  | cons c cs ih =>
    simp only [hasParitySuffixL, Bool.or_eq_true]
    rw [matchesParityHere_iff, ih]
    constructor
    · rintro (⟨d, hd, hne, hall⟩ | ⟨a, d, hd, hne, hall⟩)
      · exact ⟨[], d, by simpa using hd, hne, hall⟩
      · exact ⟨c :: a, d, by simp [hd], hne, hall⟩
    · rintro ⟨a, d, hd, hne, hall⟩
      cases a with
      | nil => exact Or.inl ⟨d, by simpa using hd, hne, hall⟩
      | cons a0 as =>
        simp only [List.cons_append, List.cons.injEq] at hd
        exact Or.inr ⟨as, d, hd.2, hne, hall⟩

theorem hasParity_last_digit : ∀ (cs : List Char), hasParitySuffixL cs = true →
    ∃ ch, cs.getLast? = some ch ∧ isDigitCh ch = true := by
  intro cs h
  obtain ⟨a, d, hd, hne, hall⟩ := (hasParitySuffixL_iff cs).mp h
  refine ⟨d.getLast hne, ?_, ?_⟩
  · rw [hd, List.getLast?_append_of_ne_nil _ hne]
    exact List.getLast?_eq_getLast d hne
  · exact List.all_eq_true.mp hall (d.getLast hne) (List.getLast_mem hne)

theorem data_append_eq : ∀ (s t : String), (s ++ t).data = s.data ++ t.data := by
  intro s t
  rfl

theorem md_name_not_parity : ∀ (s : String), isParityName (s ++ ".md") = false := by
  intro s
  by_contra hcon
  have htrue : isParityName (s ++ ".md") = true := by
    cases hb : isParityName (s ++ ".md") with
    | false => exact absurd hb hcon
    | true => rfl
  unfold isParityName at htrue
  rw [data_append_eq] at htrue
  obtain ⟨ch, hlast, hdig⟩ := hasParity_last_digit _ htrue
  have hmd : (String.data ".md") = ['.', 'm', 'd'] := rfl
  rw [hmd, List.getLast?_append_of_ne_nil _ (by simp)] at hlast
  have : ch = 'd' := by
    simp only [List.getLast?] at hlast
    simpa using hlast.symm
  rw [this] at hdig
  simp [isDigitCh] at hdig

theorem md_name_ne_self : ∀ (s : String), s ++ ".md" ≠ s := by
  intro s h
  have hdata := congrArg String.data h
  rw [data_append_eq] at hdata
  have hlen := congrArg List.length hdata
  simp [List.length_append] at hlen

theorem md_name_ne_parityName : ∀ (s : String) (i : Nat),
    s ++ ".md" ≠ parityName s i := by
  intro s i h
  have hdata := congrArg String.data h
  unfold parityName at hdata
  rw [data_append_eq, data_append_eq, data_append_eq] at hdata
  rw [List.append_assoc] at hdata
  have := List.append_cancel_left hdata
  simp [String.data] at this

theorem foldl_setContent_if_ne : ∀ (idxs : List Nat) (fs : FS)
    (nameOf : Nat → String) (g : Nat → List Nat) (q : Nat → Prop)
    [DecidablePred q] (n : String), (∀ i, n ≠ nameOf i) →
    lookupFile
      (idxs.foldl (fun acc i => if q i then setContent acc (nameOf i) (g i) else acc) fs)
      n = lookupFile fs n := by
  intro idxs
  induction idxs with
  | nil => intro fs nameOf g q _ n _; rfl
  | cons i is ih =>
    intro fs nameOf g q hdq n hne
    simp only [List.foldl_cons]
    rw [ih _ nameOf g q n hne]
    by_cases hq : q i
    · rw [if_pos hq]
      exact lookupFile_setContent_ne fs _ (g i) n (hne i)
    · rw [if_neg hq]

theorem repairWrite_preserves_md : ∀ (fs : FS) (fname : String) (md : Metadata)
    (corrupt : List Nat) (dataChunks newShards : List (List Nat)),
    lookupFile (repairWrite fs fname md corrupt dataChunks newShards)
      (fname ++ ".md") = lookupFile fs (fname ++ ".md") := by
  intro fs fname md corrupt dataChunks newShards
  unfold repairWrite
  rw [foldl_setContent_if_ne corrupt _
    (fun i => parityName fname (i - md.dataShards + 1))
    (fun i => newShards.getD i []) (fun i => md.dataShards ≤ i)
    (fname ++ ".md") (fun i => md_name_ne_parityName fname _)]
  split
  · exact lookupFile_setContent_ne fs fname _ _ (md_name_ne_self fname)
  · rfl

theorem repairData_preserves_md : ∀ (hash : List Nat → String)
    (dec : List Nat → Option Metadata)
    (recon : List (List Nat) → List Nat → Except String (List (List Nat)))
    (fs : FS) (fname : String),
    lookupFile (repairData hash dec recon fs fname).2 (fname ++ ".md") =
      lookupFile fs (fname ++ ".md") := by
  intro hash dec recon fs fname
  simp only [repairData]
  split
  · rfl
  · split
    · rfl
    · split
      · rfl
      · split
        · rfl
        · split
          · rfl
          · split
            · split
              · rfl
              · exact repairWrite_preserves_md fs fname _ _ _ _
            · rfl

theorem lookupFile_append_none : ∀ (fs l : FS) (n : String),
    lookupFile fs n = none → lookupFile (fs ++ l) n = lookupFile l n := by
  intro fs
  induction fs with
  | nil => intro l n _; rfl
  | cons e fs ih =>
    intro l n h
    obtain ⟨m, f⟩ := e
    by_cases hmn : m = n
    · simp [lookupFile, hmn] at h
    · simp only [lookupFile, if_neg hmn] at h
      simpa only [List.cons_append, lookupFile, if_neg hmn] using ih l n h

theorem startsWithChars_append_of : ∀ (ps as bs : List Char),
    startsWithChars as ps = true → startsWithChars (as ++ bs) ps = true := by
  intro ps
  induction ps with
  | nil =>
    intro as bs _
    cases as ++ bs with
    | nil => rfl
    | cons x xs => rfl
  | cons p ps ih =>
    intro as bs h
    cases as with
    | nil => simp [startsWithChars] at h
    | cons a as =>
      simp only [startsWithChars, Bool.and_eq_true, decide_eq_true_eq] at h
      simp only [List.cons_append, startsWithChars, Bool.and_eq_true, decide_eq_true_eq]
      exact ⟨h.1, ih as bs h.2⟩

theorem cannotRepair_msg_starts : ∀ (c p : Nat),
    strStartsWith (RepairErr.message (RepairErr.cannotRepair c p))
      "Cannot repair data" = true := by
  intro c p
  unfold RepairErr.message strStartsWith
  rw [data_append_eq, data_append_eq, data_append_eq, data_append_eq]
  simp only [List.append_assoc]
  exact startsWithChars_append_of _ _ _ (by decide)

theorem reconErr_msg_starts : ∀ (s : String),
    strStartsWith (RepairErr.message (RepairErr.reconErr s))
      "Error reconstructing data" = true := by
  intro s
  unfold RepairErr.message strStartsWith
  rw [data_append_eq]
  exact startsWithChars_append_of _ _ _ (by decide)

theorem repairRoute_ok_statuses : ∀ (fname : String) (res : Option RepairErr)
    (s : String), repairRoute fname res = RepairOut.ok fname s →
    s = "GOOD" ∨ strStartsWith s "Cannot repair data" = true ∨
      strStartsWith s "Error reconstructing data" = true := by
  intro fname res s h
  cases res with
  | none =>
    simp only [repairRoute, RepairOut.ok.injEq] at h
    exact Or.inl h.2.symm
  | some e =>
    simp only [repairRoute] at h
    by_cases hne : e.isNotExist = true
    · rw [if_pos hne] at h
      cases h
    · rw [if_neg hne] at h
      by_cases hpre : (strStartsWith e.message "Cannot repair data" ||
          strStartsWith e.message "Error reconstructing data") = true
      · rw [if_pos hpre] at h
        have hpre2 : strStartsWith e.message "Cannot repair data" = true ∨
            strStartsWith e.message "Error reconstructing data" = true := by
          simpa using hpre
        rcases hpre2 with h1 | h2
        · refine Or.inr (Or.inl ?_)
          have : s = e.message := (RepairOut.ok.injEq _ _ _ _).mp h |>.2.symm
          rwa [this]
        · refine Or.inr (Or.inr ?_)
          have : s = e.message := (RepairOut.ok.injEq _ _ _ _).mp h |>.2.symm
          rwa [this]
      · rw [if_neg hpre] at h
        cases h

theorem repairDataHandler_eq : ∀ (hash : List Nat → String)
    (dec : List Nat → Option Metadata)
    (recon : List (List Nat) → List Nat → Except String (List (List Nat)))
    (fs : FS) (urlPath fname : String),
    getURLParam urlPath = Except.ok fname →
    repairDataHandler hash dec recon fs "GET" urlPath =
      (repairRoute fname (repairData hash dec recon fs fname).1,
        (repairData hash dec recon fs fname).2) := by
  intro hash dec recon fs urlPath fname hurl
  simp only [repairDataHandler]
  rw [if_neg (by simp), hurl]

/-- C8: for every submit request whose desired record name is missing
(Go's `FormValue` returns the empty string for a missing field), empty, or
contains the path-separator character `/`, the submit handler responds
HTTP 400 and creates no files on disk: the directory state is returned
unchanged. -/
theorem C8_submit_bad_name : ∀ (hash : List Nat → String)
    (codec : List (List Nat) → Nat → List (List Nat)) (enc : Metadata → List Nat)
    (cfg : Config) (fs : FS) (content : List Nat) (filenm : String)
    (now : DateTime), filenm = "" ∨ containsSlash filenm = true →
    submitDataHandler hash codec enc cfg fs "POST" (some content) filenm now =
      (SubmitOut.err 400, fs) := by
  intro hash codec enc cfg fs content filenm now h
  rcases h with h | h
  · subst h; rfl
  · by_cases hemp : filenm = ""
    · subst hemp; rfl
    · simp [submitDataHandler, hemp, h]

/-- Witness for C8 at the name `a/b`. -/
theorem C8_witness : submitDataHandler sampleHash sampleCodec sampleEnc
    (Config.mk 2 1) [] "POST" (some [1, 2, 3]) "a/b" sampleTime =
    (SubmitOut.err 400, []) :=
  C8_submit_bad_name sampleHash sampleCodec sampleEnc (Config.mk 2 1) []
    [1, 2, 3] "a/b" sampleTime (Or.inr (by decide))

/-- C4: List returns exactly the directory entry names that do not match
the parity-file suffix pattern, in ascending lexicographic order; on the
directory `file1, file2, file1.parity.1, file1.parity.2` it returns
`["file1", "file2"]`. -/
theorem C4_listData_sorted_filter :
    (∀ fs : FS, (listData fs).Sorted (· ≤ ·) ∧
      (∀ n, n ∈ listData fs ↔ n ∈ fs.map Prod.fst ∧ isParityName n = false)) ∧
    listData [("file1", FileData.mk [] sampleTime),
      ("file2", FileData.mk [] sampleTime),
      ("file1.parity.1", FileData.mk [] sampleTime),
      ("file1.parity.2", FileData.mk [] sampleTime)] = ["file1", "file2"] := by
  constructor
  · intro fs
    refine ⟨sorted_sortStrings _, ?_⟩
    intro n
    simp only [listData, mem_sortStrings, List.mem_filter, Bool.not_eq_true']
  · rfl

/-- C7: the identical chunk-windowing function serves both directions —
the data-shard windows `CheckData` re-derives (bounded by `metadata.size`)
coincide with the windows `GenerateParityFiles` produced at submit
whenever content, length and shard count agree, so the derived shard
hashes are stable; moreover a successful `GenerateParityFiles` records
`metadata.size` as the file's length and `metadata.dataShards` as the
configured count, so a later Check re-derives exactly the submit-time
windows. -/
theorem C7_chunk_windowing_symmetric :
    (∀ (content : List Nat) (size k : Nat) (hash : List Nat → String),
      size = content.length →
      readPathChunks content size k = writePathChunks content k ∧
      (readPathChunks content size k).map hash =
        (writePathChunks content k).map hash) ∧
    (∀ (hash : List Nat → String) (codec : List (List Nat) → Nat → List (List Nat))
      (cfg : Config) (fs : FS) (p : String) (now : DateTime) (file : FileData)
      (md : Metadata) (fs2 : FS), lookupFile fs p = some file →
      generateParityFiles hash codec cfg fs p now = (Except.ok md, fs2) →
      md.size = file.content.length ∧ md.dataShards = cfg.dataShards ∧
      readPathChunks file.content md.size md.dataShards =
        writePathChunks file.content cfg.dataShards) := by
  constructor
  · intro content size k hash hsz
    subst hsz
    exact ⟨rfl, rfl⟩
  · intro hash codec cfg fs p now file md fs2 hfile hgen
    simp only [generateParityFiles, hfile] at hgen
    rcases hcr : createFilesExcl fs (parityNames p cfg.parityShards) now with ⟨r, fs1⟩
    rw [hcr] at hgen
    cases r with
    | error e => simp at hgen
    | ok u =>
      simp only [Prod.mk.injEq, Except.ok.injEq] at hgen
      obtain ⟨hmd, _⟩ := hgen
      subst hmd
      exact ⟨rfl, rfl, rfl⟩

/-- Witness for C7 at concrete content and a concrete submit. -/
theorem C7_witness :
    readPathChunks [1, 2, 3, 4] 4 2 = writePathChunks [1, 2, 3, 4] 2 ∧
    (Metadata.mk 2 2 1 ["1", "1", "1"]).size =
      (FileData.mk [1, 2] sampleTime).content.length :=
  ⟨(C7_chunk_windowing_symmetric.1 [1, 2, 3, 4] 4 2 sampleHash rfl).1,
    (C7_chunk_windowing_symmetric.2 sampleHash sampleCodec (Config.mk 2 1)
      [("f", FileData.mk [1, 2] sampleTime)] "f" sampleTime
      (FileData.mk [1, 2] sampleTime) (Metadata.mk 2 2 1 ["1", "1", "1"])
      [("f", FileData.mk [1, 2] sampleTime),
        ("f.parity.1", FileData.mk [7] sampleTime)] rfl rfl).1⟩

/-- C10: Check derives the shard geometry entirely from the record's
stored metadata: its result is independent of the server's configured
shard counts (first conjunct), the windows and parity count it uses come
from `metadata.size`, `metadata.dataShards` and `metadata.parityShards`
(second conjunct), and a record whose metadata records geometry 2+1 is
still verified under a server configured 5+9 (third conjunct). -/
theorem C10_check_geometry_from_metadata :
    (∀ (hash : List Nat → String) (dec : List Nat → Option Metadata)
      (cfg1 cfg2 : Config) (fs : FS) (fname : String),
      checkData hash dec cfg1 fs fname = checkData hash dec cfg2 fs fname) ∧
    (∀ (hash : List Nat → String) (dec : List Nat → Option Metadata)
      (cfg : Config) (fs : FS) (fname : String) (file mdFile : FileData)
      (md : Metadata) (ps : List (List Nat)),
      lookupFile fs fname = some file →
      lookupFile fs (fname ++ ".md") = some mdFile →
      dec mdFile.content = some md →
      openParityFiles fs fname md.parityShards = some ps →
      checkData hash dec cfg fs fname = Except.ok
        (checkHealth hash
          (splitIntoPaddedChunks file.content md.size md.dataShards ++ ps)
          md.hashes, goTimeFormat file.mtime, md.hashes)) ∧
    checkData sampleHash sampleDecGood (Config.mk 5 9) sampleFS "r" =
      Except.ok (true, goTimeFormat sampleTime, ["1", "1", "1"]) := by
  refine ⟨fun hash dec cfg1 cfg2 fs fname => rfl, ?_, by rfl⟩
  intro hash dec cfg fs fname file mdFile md ps hfile hmd hdec hps
  simp only [checkData, hfile, hmd, hdec, hps]

/-- Witness for C10 at the sample record under an unrelated config. -/
theorem C10_witness :
    checkData sampleHash sampleDec (Config.mk 7 3) sampleFS "r" = Except.ok
      (checkHealth sampleHash
        (splitIntoPaddedChunks (FileData.mk [1, 2] sampleTime).content
          sampleMd.size sampleMd.dataShards ++ [[7]]) sampleMd.hashes,
        goTimeFormat (FileData.mk [1, 2] sampleTime).mtime, sampleMd.hashes) :=
  C10_check_geometry_from_metadata.2.1 sampleHash sampleDec (Config.mk 7 3)
    sampleFS "r" (FileData.mk [1, 2] sampleTime) (FileData.mk [9] sampleTime)
    sampleMd [[7]] rfl rfl rfl rfl

/-- C3: when the primary file and its metadata both exist and decode (and
the metadata's parity files are readable, as the claim's shard reading
presumes), Check returns exactly the aggregate health boolean — true iff
every shard's current hash (data windows re-derived from the primary file
bounded by `metadata.size`, parity read from the parity files) equals
`metadata.shardHashes` at the same index — together with the primary
file's modification time formatted `YYYY-MM-DD HH:MM:SS` and the full
stored hash list. -/
theorem C3_check_health_iff : ∀ (hash : List Nat → String)
    (dec : List Nat → Option Metadata) (cfg : Config) (fs : FS)
    (fname : String) (file mdFile : FileData) (md : Metadata)
    (ps : List (List Nat)), lookupFile fs fname = some file →
    lookupFile fs (fname ++ ".md") = some mdFile →
    dec mdFile.content = some md →
    openParityFiles fs fname md.parityShards = some ps →
    (splitIntoPaddedChunks file.content md.size md.dataShards ++ ps).length =
      md.hashes.length →
    checkData hash dec cfg fs fname = Except.ok
      (checkHealth hash
        (splitIntoPaddedChunks file.content md.size md.dataShards ++ ps)
        md.hashes, goTimeFormat file.mtime, md.hashes) ∧
    (checkHealth hash
        (splitIntoPaddedChunks file.content md.size md.dataShards ++ ps)
        md.hashes = true ↔
      ∀ i, i < (splitIntoPaddedChunks file.content md.size md.dataShards ++ ps).length →
        hash ((splitIntoPaddedChunks file.content md.size md.dataShards ++ ps).getD i []) =
          md.hashes.getD i "") := by
  intro hash dec cfg fs fname file mdFile md ps hfile hmd hdec hps hlen
  constructor
  · simp only [checkData, hfile, hmd, hdec, hps]
  · exact checkHealth_iff hash _ md.hashes hlen

/-- Witness for C3 at the sample healthy record. -/
theorem C3_witness :
    checkData sampleHash sampleDecGood (Config.mk 2 1) sampleFS "r" = Except.ok
      (checkHealth sampleHash
        (splitIntoPaddedChunks (FileData.mk [1, 2] sampleTime).content
          sampleMdGood.size sampleMdGood.dataShards ++ [[7]])
        sampleMdGood.hashes,
        goTimeFormat (FileData.mk [1, 2] sampleTime).mtime,
        sampleMdGood.hashes) :=
  (C3_check_health_iff sampleHash sampleDecGood (Config.mk 2 1) sampleFS "r"
    (FileData.mk [1, 2] sampleTime) (FileData.mk [9] sampleTime) sampleMdGood
    [[7]] rfl rfl rfl rfl (by rfl)).1

/-- C9: the list filter matches exactly the names containing `parity.`
followed by one or more digits at the end; consequently every record's
metadata file name `<name>.md` can never match and is listed as if it
were a record, while the record name `a.parity.1` — legal for submit —
is accepted (HTTP 200) yet omitted from the listing. -/
theorem C9_parity_filter_exact :
    (∀ s : String, isParityName s = true ↔
      ∃ a d, s.data = a ++ parityPat ++ d ∧ d ≠ [] ∧ d.all isDigitCh = true) ∧
    (∀ s : String, isParityName (s ++ ".md") = false) ∧
    (∀ (fs : FS) (n : String), (n ++ ".md") ∈ fs.map Prod.fst →
      (n ++ ".md") ∈ listData fs) ∧
    ((submitDataHandler sampleHash sampleCodec sampleEnc (Config.mk 2 1) []
        "POST" (some [1, 2, 3]) "a.parity.1" sampleTime).1 =
      SubmitOut.ok 3 ["2", "2", "1"] 2 1 ∧
      "a.parity.1" ∉ listData (submitDataHandler sampleHash sampleCodec
        sampleEnc (Config.mk 2 1) [] "POST" (some [1, 2, 3]) "a.parity.1"
        sampleTime).2) := by
  refine ⟨fun s => hasParitySuffixL_iff s.data, md_name_not_parity, ?_, by rfl, by decide⟩
  intro fs n hmem
  simp only [listData, mem_sortStrings, List.mem_filter]
  exact ⟨hmem, by rw [md_name_not_parity n]; rfl⟩

/-- Witness for C9: the metadata name of record `x` appears in the
listing whenever its file is in the directory. -/
theorem C9_witness :
    ("x" ++ ".md") ∈ listData [("x" ++ ".md", FileData.mk [] sampleTime)] :=
  C9_parity_filter_exact.2.2.1 [("x" ++ ".md", FileData.mk [] sampleTime)] "x"
    (by decide)

/-- C5: metadata write is exclusive-create — if a metadata file already
exists the write fails with `AlreadyExists` and the whole directory state
(in particular the existing metadata content) is unchanged; moreover no
operation of the manager ever overwrites an existing file's entry
(`SaveFile`, `WriteMetadata`, `GenerateParityFiles` and the submit
handler preserve every pre-existing entry verbatim), and the
spec-modelled repair never touches the record's metadata file. -/
theorem C5_metadata_write_once :
    (∀ (enc : Metadata → List Nat) (fs : FS) (fname : String) (md : Metadata)
      (now : DateTime), (lookupFile fs (fname ++ ".md")).isSome = true →
      writeMetadata enc fs fname md now = (Except.error FMErr.alreadyExists, fs)) ∧
    (∀ (fs : FS) (content : List Nat) (fname : String) (now : DateTime)
      (n : String) (c : FileData), lookupFile fs n = some c →
      lookupFile (saveFile fs content fname now).2 n = some c) ∧
    (∀ (enc : Metadata → List Nat) (fs : FS) (fname : String) (md : Metadata)
      (now : DateTime) (n : String) (c : FileData), lookupFile fs n = some c →
      lookupFile (writeMetadata enc fs fname md now).2 n = some c) ∧
    (∀ (hash : List Nat → String) (codec : List (List Nat) → Nat → List (List Nat))
      (cfg : Config) (fs : FS) (p : String) (now : DateTime) (n : String)
      (c : FileData), lookupFile fs n = some c →
      lookupFile (generateParityFiles hash codec cfg fs p now).2 n = some c) ∧
    (∀ (hash : List Nat → String) (codec : List (List Nat) → Nat → List (List Nat))
      (enc : Metadata → List Nat) (cfg : Config) (fs : FS) (method : String)
      (fileField : Option (List Nat)) (filenm : String) (now : DateTime)
      (n : String) (c : FileData), lookupFile fs n = some c →
      lookupFile (submitDataHandler hash codec enc cfg fs method fileField
        filenm now).2 n = some c) ∧
    (∀ (hash : List Nat → String) (dec : List Nat → Option Metadata)
      (recon : List (List Nat) → List Nat → Except String (List (List Nat)))
      (fs : FS) (fname : String),
      lookupFile (repairData hash dec recon fs fname).2 (fname ++ ".md") =
        lookupFile fs (fname ++ ".md")) := by
  refine ⟨?_, saveFile_preserves, writeMetadata_preserves,
    generateParityFiles_preserves, submitDataHandler_preserves,
    repairData_preserves_md⟩
  intro enc fs fname md now hsome
  cases h : lookupFile fs (fname ++ ".md") with
  | none => rw [h] at hsome; simp at hsome
  | some f => simp [writeMetadata, h]

/-- Witness for C5: writing metadata for `r` when `r.md` exists fails and
changes nothing. -/
theorem C5_witness :
    writeMetadata sampleEnc [("r.md", FileData.mk [9] sampleTime)] "r"
      sampleMd sampleTime =
      (Except.error FMErr.alreadyExists, [("r.md", FileData.mk [9] sampleTime)]) :=
  C5_metadata_write_once.1 sampleEnc [("r.md", FileData.mk [9] sampleTime)] "r"
    sampleMd sampleTime (by decide)

/-- C6: Check fails with the `File not found` error (mapped by the
handler to HTTP 404) exactly when the primary data file is missing; when
the primary file exists but its metadata file is missing or undecodable
Check returns the corresponding error instead of any health verdict, and
the handler maps those failures to HTTP 500. -/
theorem C6_check_notfound_iff : ∀ (hash : List Nat → String)
    (dec : List Nat → Option Metadata) (cfg : Config) (fs : FS)
    (fname urlPath : String),
    (checkData hash dec cfg fs fname = Except.error CheckErr.fileNotFound ↔
      lookupFile fs fname = none) ∧
    (getURLParam urlPath = Except.ok fname →
      (lookupFile fs fname = none →
        checkDataHandler hash dec cfg fs "GET" urlPath = CheckOut.err 404) ∧
      (∀ file, lookupFile fs fname = some file →
        (lookupFile fs (fname ++ ".md") = none →
          checkData hash dec cfg fs fname =
            Except.error CheckErr.metadataNotFound ∧
          checkDataHandler hash dec cfg fs "GET" urlPath = CheckOut.err 500) ∧
        (∀ mdFile, lookupFile fs (fname ++ ".md") = some mdFile →
          dec mdFile.content = none →
          checkData hash dec cfg fs fname =
            Except.error CheckErr.metadataCorrupt ∧
          checkDataHandler hash dec cfg fs "GET" urlPath = CheckOut.err 500))) := by
  intro hash dec cfg fs fname urlPath
  constructor
  · constructor
    · intro herr
      cases hfile : lookupFile fs fname with
      | none => rfl
      | some file =>
        exfalso
        simp only [checkData, hfile] at herr
        cases hmd : lookupFile fs (fname ++ ".md") with
        | none => simp [hmd] at herr
        | some mdFile =>
          simp only [hmd] at herr
          cases hdec : dec mdFile.content with
          | none => simp [hdec] at herr
          | some md =>
            simp only [hdec] at herr
            cases hop : openParityFiles fs fname md.parityShards with
            | none => simp [hop] at herr
            | some ps => simp [hop] at herr
    · intro h
      simp [checkData, h]
  · intro hurl
    constructor
    · intro hnone
      have hc : checkData hash dec cfg fs fname =
          Except.error CheckErr.fileNotFound := by
        simp [checkData, hnone]
      simp [checkDataHandler, hurl, hc, CheckErr.message]
    · intro file hfile
      constructor
      · intro hmd
        have hc : checkData hash dec cfg fs fname =
            Except.error CheckErr.metadataNotFound := by
          simp [checkData, hfile, hmd]
        exact ⟨hc, by simp [checkDataHandler, hurl, hc, CheckErr.message]⟩
      · intro mdFile hmd hdec
        have hc : checkData hash dec cfg fs fname =
            Except.error CheckErr.metadataCorrupt := by
          simp [checkData, hfile, hmd, hdec]
        exact ⟨hc, by simp [checkDataHandler, hurl, hc, CheckErr.message]⟩

/-- Witness for C6: the sample record with its metadata file removed
yields a 500, and a missing primary yields the 404 branch. -/
theorem C6_witness :
    checkDataHandler sampleHash sampleDecGood (Config.mk 2 1)
      [("r", FileData.mk [1, 2] sampleTime)] "GET" "/check_data/r" =
      CheckOut.err 500 :=
  (((C6_check_notfound_iff sampleHash sampleDecGood (Config.mk 2 1)
      [("r", FileData.mk [1, 2] sampleTime)] "r" "/check_data/r").2
    rfl).2 (FileData.mk [1, 2] sampleTime) rfl).1 (by decide) |>.2

theorem submit_parity_collision_500 : ∀ (hash : List Nat → String)
    (codec : List (List Nat) → Nat → List (List Nat)) (enc : Metadata → List Nat)
    (cfg : Config) (fs : FS) (content : List Nat) (filenm : String)
    (now : DateTime) (i : Nat), lookupFile fs filenm = none →
    (lookupFile fs (parityName filenm i)).isSome = true →
    1 ≤ i → i ≤ cfg.parityShards → filenm ≠ "" → containsSlash filenm = false →
    (submitDataHandler hash codec enc cfg fs "POST" (some content) filenm now).1 =
      SubmitOut.err 500 := by
  intro hash codec enc cfg fs content filenm now i hnone hpsome h1 hk hemp hsl
  have hfs1 : (saveFile fs content filenm now).2 =
      fs ++ [(filenm, FileData.mk content now)] := by
    simp [saveFile, hnone]
  have hok : (saveFile fs content filenm now).1 = Except.ok filenm := by
    simp [saveFile, hnone]
  have hlook1 : lookupFile (fs ++ [(filenm, FileData.mk content now)]) filenm =
      some (FileData.mk content now) := by
    rw [lookupFile_append_none fs _ filenm hnone]
    simp [lookupFile]
  obtain ⟨pf, hpf⟩ := Option.isSome_iff_exists.mp hpsome
  have hpsome1 : lookupFile (fs ++ [(filenm, FileData.mk content now)])
      (parityName filenm i) = some pf :=
    lookupFile_append_some fs _ _ pf hpf
  have hmem : parityName filenm i ∈ parityNames filenm cfg.parityShards := by
    have := mem_parityNames filenm cfg.parityShards (i - 1) (by omega)
    rwa [Nat.sub_add_cancel h1] at this
  have hcoll := createFilesExcl_collision (parityNames filenm cfg.parityShards)
    (fs ++ [(filenm, FileData.mk content now)]) now (parityName filenm i) hmem
    (by rw [hpsome1]; simp)
  have hgen : (generateParityFiles hash codec cfg
      (fs ++ [(filenm, FileData.mk content now)]) filenm now).1 =
      Except.error FMErr.alreadyExists := by
    simp only [generateParityFiles, hlook1]
    rcases hcr : createFilesExcl (fs ++ [(filenm, FileData.mk content now)])
        (parityNames filenm cfg.parityShards) now with ⟨r, fs2⟩
    rw [hcr] at hcoll
    simp only at hcoll
    rw [hcoll]
  simp only [submitDataHandler]
  rw [if_neg (by simp)]
  simp only [if_neg hemp, hsl]
  rcases hsv : saveFile fs content filenm now with ⟨rs, fs1⟩
  rw [hsv] at hok hfs1
  simp only at hok hfs1
  subst hok
  subst hfs1
  rcases hgp : generateParityFiles hash codec cfg
      (fs ++ [(filenm, FileData.mk content now)]) filenm now with ⟨rg, fs2⟩
  rw [hgp] at hgen
  simp only at hgen
  subst hgen
  simp [hgp]

/-- C2 counterexample: submitting `f` while only `f.parity.1` exists does
fail with HTTP 500, but it creates the primary data file `f` on disk —
refuting the claim that a failing submit creates no artifact. -/
theorem C2_counterexample :
    (submitDataHandler sampleHash sampleCodec sampleEnc (Config.mk 2 1)
      [("f.parity.1", FileData.mk [] sampleTime)] "POST" (some [1, 2, 3]) "f"
      sampleTime).1 = SubmitOut.err 500 ∧
    lookupFile [("f.parity.1", FileData.mk [] sampleTime)] "f" = none ∧
    lookupFile (submitDataHandler sampleHash sampleCodec sampleEnc
      (Config.mk 2 1) [("f.parity.1", FileData.mk [] sampleTime)] "POST"
      (some [1, 2, 3]) "f" sampleTime).2 "f" =
      some (FileData.mk [1, 2, 3] sampleTime) :=
  ⟨rfl, rfl, rfl⟩

/-- C2 (amended): a submit colliding with an existing data file or any
existing parity file of that name fails with HTTP 500, the underlying
error being `AlreadyExists`, and every pre-existing file is left
byte-for-byte untouched; when the collision is on the data file itself no
artifact is created (the directory is returned unchanged), but a
parity-file collision occurs only after the data file has been created
(submit is non-transactional). -/
theorem C2_submit_collision : ∀ (hash : List Nat → String)
    (codec : List (List Nat) → Nat → List (List Nat)) (enc : Metadata → List Nat)
    (cfg : Config) (fs : FS) (content : List Nat) (filenm : String)
    (now : DateTime), filenm ≠ "" → containsSlash filenm = false →
    ((lookupFile fs filenm).isSome = true ∨
      ∃ i, 1 ≤ i ∧ i ≤ cfg.parityShards ∧
        (lookupFile fs (parityName filenm i)).isSome = true) →
    (submitDataHandler hash codec enc cfg fs "POST" (some content) filenm
      now).1 = SubmitOut.err 500 ∧
    (∀ n c, lookupFile fs n = some c →
      lookupFile (submitDataHandler hash codec enc cfg fs "POST" (some content)
        filenm now).2 n = some c) ∧
    ((lookupFile fs filenm).isSome = true →
      (saveFile fs content filenm now).1 = Except.error FMErr.alreadyExists ∧
      submitDataHandler hash codec enc cfg fs "POST" (some content) filenm now =
        (SubmitOut.err 500, fs)) := by
  intro hash codec enc cfg fs content filenm now hemp hsl hcoll
  refine ⟨?_, ?_, ?_⟩
  · rcases hcoll with hdata | ⟨i, h1, hk, hpsome⟩
    · obtain ⟨f, hf⟩ := Option.isSome_iff_exists.mp hdata
      simp [submitDataHandler, hemp, hsl, saveFile, hf]
    · cases hdata : lookupFile fs filenm with
      | some f => simp [submitDataHandler, hemp, hsl, saveFile, hdata]
      | none =>
        exact submit_parity_collision_500 hash codec enc cfg fs content filenm
          now i hdata hpsome h1 hk hemp hsl
  · intro n c h
    exact submitDataHandler_preserves hash codec enc cfg fs "POST"
      (some content) filenm now n c h
  · intro hdata
    obtain ⟨f, hf⟩ := Option.isSome_iff_exists.mp hdata
    constructor
    · simp [saveFile, hf]
    · simp [submitDataHandler, hemp, hsl, saveFile, hf]

/-- Witness for C2 at the concrete parity collision. -/
theorem C2_witness :
    (submitDataHandler sampleHash sampleCodec sampleEnc (Config.mk 2 1)
      [("f.parity.1", FileData.mk [] sampleTime)] "POST" (some [1, 2, 3]) "f"
      sampleTime).1 = SubmitOut.err 500 :=
  (C2_submit_collision sampleHash sampleCodec sampleEnc (Config.mk 2 1)
    [("f.parity.1", FileData.mk [] sampleTime)] [1, 2, 3] "f" sampleTime
    (by decide) (by decide)
    (Or.inr ⟨1, by decide, by decide, by decide⟩)).1

theorem repairRoute_cannotRepair : ∀ (fname : String) (c p : Nat),
    repairRoute fname (some (RepairErr.cannotRepair c p)) =
      RepairOut.ok fname (RepairErr.message (RepairErr.cannotRepair c p)) := by
  intro fname c p
  simp only [repairRoute]
  rw [if_neg (by simp [RepairErr.isNotExist])]
  rw [cannotRepair_msg_starts]
  simp

/-- C1 counterexample: with one corrupt shard (within the parity budget,
so not the unrecoverable condition) and a codec whose reconstruction
fails, the repair endpoint still answers 200 with the explanatory status
`Error reconstructing data: boom` — so the unrecoverable condition is not
the only failure mode rendered as a 200 response with a status string. -/
theorem C1_counterexample :
    repairDataHandler sampleHash sampleDec reconFail sampleFS "GET"
      "/repair_data/r" =
      (RepairOut.ok "r" "Error reconstructing data: boom", sampleFS) ∧
    strStartsWith "Error reconstructing data: boom" "Cannot repair data" =
      false ∧
    "Error reconstructing data: boom" ≠ "GOOD" ∧
    corruptIndices sampleHash
      (splitIntoPaddedChunks [1, 2] sampleMd.size sampleMd.dataShards ++ [[7]])
      sampleMd.hashes = [2] ∧
    sampleMd.parityShards = 1 :=
  ⟨rfl, by decide, by decide, by decide, rfl⟩

/-- C1 (amended): for a record whose primary and metadata files exist and
decode and whose parity files are readable, with `C` the corrupt-shard
set: when `|C| > parityShardCount` the endpoint responds 200 with the
status `Cannot repair data: <|C|> shards corrupt, only have
<parityShardCount> parity shards` (beginning with `Cannot repair data`
and carrying both counts); when repair finds no corruption, or repairs
successfully, the status is `GOOD`; and the statuses rendered as 200 are
exactly `GOOD` and the messages beginning with `Cannot repair data` or
with `Error reconstructing data` (codec reconstruction failures being the
second failure mode the handler renders as 200). -/
theorem C1_repair_statuses : ∀ (hash : List Nat → String)
    (dec : List Nat → Option Metadata)
    (recon : List (List Nat) → List Nat → Except String (List (List Nat)))
    (fs : FS) (fname urlPath : String) (file mdFile : FileData)
    (md : Metadata) (ps : List (List Nat)) (C : List Nat),
    getURLParam urlPath = Except.ok fname →
    lookupFile fs fname = some file →
    lookupFile fs (fname ++ ".md") = some mdFile →
    dec mdFile.content = some md →
    openParityFiles fs fname md.parityShards = some ps →
    C = corruptIndices hash
      (splitIntoPaddedChunks file.content md.size md.dataShards ++ ps)
      md.hashes →
    (C.length > md.parityShards →
      repairDataHandler hash dec recon fs "GET" urlPath =
        (RepairOut.ok fname
          (RepairErr.message (RepairErr.cannotRepair C.length md.parityShards)),
          fs) ∧
      strStartsWith
        (RepairErr.message (RepairErr.cannotRepair C.length md.parityShards))
        "Cannot repair data" = true ∧
      RepairErr.message (RepairErr.cannotRepair C.length md.parityShards) =
        "Cannot repair data: " ++ toString C.length ++
          " shards corrupt, only have " ++ toString md.parityShards ++
          " parity shards") ∧
    (C.length = 0 →
      repairDataHandler hash dec recon fs "GET" urlPath =
        (RepairOut.ok fname "GOOD", fs)) ∧
    (∀ newShards, C.length ≠ 0 → C.length ≤ md.parityShards →
      recon (splitIntoPaddedChunks file.content md.size md.dataShards ++ ps) C =
        Except.ok newShards →
      repairDataHandler hash dec recon fs "GET" urlPath =
        (RepairOut.ok fname "GOOD",
          repairWrite fs fname md C
            (splitIntoPaddedChunks file.content md.size md.dataShards)
            newShards)) ∧
    (∀ s fs2, repairDataHandler hash dec recon fs "GET" urlPath =
        (RepairOut.ok fname s, fs2) →
      s = "GOOD" ∨ strStartsWith s "Cannot repair data" = true ∨
        strStartsWith s "Error reconstructing data" = true) := by
  intro hash dec recon fs fname urlPath file mdFile md ps C hurl hfile hmd hdec
    hps hC
  subst hC
  refine ⟨?_, ?_, ?_, ?_⟩
  · intro hgt
    have hrd : repairData hash dec recon fs fname =
        (some (RepairErr.cannotRepair
          (corruptIndices hash
            (splitIntoPaddedChunks file.content md.size md.dataShards ++ ps)
            md.hashes).length md.parityShards), fs) := by
      simp only [repairData, hfile, hmd, hdec, hps]
      rw [if_neg (by omega), if_neg (by omega)]
    rw [repairDataHandler_eq hash dec recon fs urlPath fname hurl, hrd]
    exact ⟨by rw [repairRoute_cannotRepair], cannotRepair_msg_starts _ _, rfl⟩
  · intro h0
    have hrd : repairData hash dec recon fs fname = (none, fs) := by
      simp only [repairData, hfile, hmd, hdec, hps]
      rw [if_pos h0]
    rw [repairDataHandler_eq hash dec recon fs urlPath fname hurl, hrd]
    rfl
  · intro newShards hne0 hle hrec
    have hrd : repairData hash dec recon fs fname = (none,
        repairWrite fs fname md
          (corruptIndices hash
            (splitIntoPaddedChunks file.content md.size md.dataShards ++ ps)
            md.hashes)
          (splitIntoPaddedChunks file.content md.size md.dataShards)
          newShards) := by
      simp only [repairData, hfile, hmd, hdec, hps]
      rw [if_neg hne0, if_pos hle, hrec]
    rw [repairDataHandler_eq hash dec recon fs urlPath fname hurl, hrd]
    rfl
  · intro s fs2 heq
    rw [repairDataHandler_eq hash dec recon fs urlPath fname hurl] at heq
    have hroute : repairRoute fname (repairData hash dec recon fs fname).1 =
        RepairOut.ok fname s := (Prod.mk.injEq _ _ _ _).mp heq |>.1
    exact repairRoute_ok_statuses fname _ s hroute

/-- Witness for C1 at the sample record with two corrupt shards against
one parity shard. -/
theorem C1_witness :
    repairDataHandler sampleHash (fun _ => some (Metadata.mk 2 2 1
      ["1", "9", "9"])) reconFail sampleFS "GET" "/repair_data/r" =
      (RepairOut.ok "r"
        (RepairErr.message (RepairErr.cannotRepair 2 1)), sampleFS) :=
  ((C1_repair_statuses sampleHash
    (fun _ => some (Metadata.mk 2 2 1 ["1", "9", "9"])) reconFail sampleFS "r"
    "/repair_data/r" (FileData.mk [1, 2] sampleTime)
    (FileData.mk [9] sampleTime) (Metadata.mk 2 2 1 ["1", "9", "9"]) [[7]]
    [1, 2] rfl rfl rfl rfl rfl (by decide)).1 (by decide)).1
